import Mathlib

/-!
Verification development for the Thorcam repository (src/com.py and
src/ini_camera.py), a shallow embedding of:

* the JSON-backed `ConfigurationManager` of src/com.py (`load_config`,
  `set`, `save_config`, `is_updated`, the `fileWatcher` polling loop and
  the constructor's conditional creation of the watcher thread), together
  with a concrete model of Python's `json.dump`/`json.load` on the value
  domain used by the configuration store; and
* the image-acquisition pipeline of src/ini_camera.py
  (`ImageAcquisitionThread.run` with its bounded queue, pairing counter
  and signal, `_get_color_image`/`_get_image`, and the
  `Camera`/`ThorlabsCameraHandler` initialization paths).

Stateful loops are embedded as explicit step functions over state records,
driven by lists of environment events (one event per loop iteration);
fallible Python code is embedded with `Option`/`Except`.
-/

namespace Thorcam

/-! ## A model of the JSON values handled by Python's json module

`Json` is the value domain of the configuration store: null, booleans,
(integer) numbers, strings, arrays and objects.  Floating-point numbers
are outside the model.  Objects are association lists in insertion order,
as Python dicts are. -/

inductive Json where
  | null : Json
  | boolean : Bool → Json
  | num : Int → Json
  | str : List Char → Json
  | arr : List Json → Json
  | obj : List (List Char × Json) → Json

/-- The configuration dictionary: string keys to JSON values, in insertion
order (a Python dict). -/
abbrev ConfigMap := List (List Char × Json)

/-! ### Decimal digits -/

/-- The character for the decimal digit `d` (`d < 10`). -/
def digChar (d : Nat) : Char := Char.ofNat (48 + d)

/-- The decimal value of a digit character. -/
def digVal (c : Char) : Nat := c.toNat - 48

/-- Whether `c` is one of the characters 0..9. -/
def isDig (c : Char) : Bool := 48 ≤ c.toNat && c.toNat ≤ 57

/-- Little-endian decimal digits of `n`, with explicit fuel so that the
definition is structurally recursive (and hence kernel-computable). -/
def natDigitsAux : Nat → Nat → List Nat
  | 0, _ => []
  | fuel+1, n => if n = 0 then [] else n % 10 :: natDigitsAux fuel (n / 10)

/-- Little-endian decimal digits of `n` (`[]` for 0). -/
def natDigitsRev (n : Nat) : List Nat := natDigitsAux n n

/-- Decimal notation for a natural number, as Python's json module prints it. -/
def natToChars (n : Nat) : List Char :=
  if n = 0 then ['0'] else ((natDigitsRev n).reverse).map digChar

/-- Decimal notation for an integer, as Python's json module prints it. -/
def intToChars : Int → List Char
  | .ofNat m => natToChars m
  | .negSucc m => '-' :: natToChars (m + 1)

/-! ### Serialization (a model of `json.dump`)

`json.dump(config, f, indent=4)` writes the value with whitespace between
tokens; whitespace carries no information for `json.load`, so the model
renders the same token stream compactly.  String escaping covers the two
escapes the renderer itself produces (`\"` and `\\`). -/

/-- JSON string-body escaping: `"` and `\` get a backslash, every other
character is written as itself. -/
def escChars : List Char → List Char
  | [] => []
  | c :: cs =>
    (if c = '"' then ['\\', '"'] else if c = '\\' then ['\\', '\\'] else [c])
      ++ escChars cs

mutual

/-- Render one JSON value (model of `json.dump` up to whitespace). -/
def renderV : Json → List Char
  | .null => ['n', 'u', 'l', 'l']
  | .boolean true => ['t', 'r', 'u', 'e']
  | .boolean false => ['f', 'a', 'l', 's', 'e']
  | .num n => intToChars n
  | .str s => '"' :: escChars s ++ ['"']
  | .arr xs => '[' :: renderElemsChars xs ++ [']']
  | .obj kvs => '{' :: renderMembersChars kvs ++ ['}']

/-- Render the comma-separated elements of an array. -/
def renderElemsChars : List Json → List Char
  | [] => []
  | [x] => renderV x
  | x :: xs => renderV x ++ ',' :: renderElemsChars xs

/-- Render the comma-separated `"key":value` members of an object. -/
def renderMembersChars : List (List Char × Json) → List Char
  | [] => []
  | [(k, v)] => '"' :: escChars k ++ '"' :: ':' :: renderV v
  | (k, v) :: kvs =>
    ('"' :: escChars k ++ '"' :: ':' :: renderV v) ++ ',' :: renderMembersChars kvs

end

mutual

/-- Parsing-cost measure of a value: a lower bound (up to +1) on the fuel
`parseV` needs. -/
def sizeV : Json → Nat
  | .null => 1
  | .boolean _ => 1
  | .num _ => 1
  | .str _ => 1
  | .arr xs => 1 + sizeL xs
  | .obj kvs => 1 + sizeM kvs

/-- Parsing-cost measure of an array's element list. -/
def sizeL : List Json → Nat
  | [] => 1
  | x :: xs => sizeV x + sizeL xs

/-- Parsing-cost measure of an object's member list. -/
def sizeM : List (List Char × Json) → Nat
  | [] => 1
  | (_, v) :: kvs => sizeV v + sizeM kvs

end

/-! ### Parsing (a model of `json.load`)

A recursive-descent parser over the character list, with explicit fuel so
that all definitions are structurally recursive.  It accepts every token
stream the renderer produces; on input it cannot read it returns `none`,
which models `json.load` raising `json.JSONDecodeError`. -/

/-- Parse the body of a string literal after its opening quote, decoding
the `\"` and `\\` escapes, up to the closing quote. -/
def parseStrBody : List Char → Option (List Char × List Char)
  | [] => none
  | c :: cs =>
    if c = '"' then some ([], cs)
    else if c = '\\' then
      match cs with
      | [] => none
      | e :: cs2 =>
        if e = '"' ∨ e = '\\' then
          match parseStrBody cs2 with
          | some (s, r) => some (e :: s, r)
          | none => none
        else none
    else
      match parseStrBody cs with
      | some (s, r) => some (c :: s, r)
      | none => none

/-- Parse a nonempty run of decimal digits into a natural number. -/
def parseNatChars (cs : List Char) : Option (Nat × List Char) :=
  let ds := cs.takeWhile isDig
  if ds.isEmpty then none
  else some (ds.foldl (fun a c => 10 * a + digVal c) 0, cs.dropWhile isDig)

/-- Parse an optionally negated decimal integer. -/
def parseIntChars : List Char → Option (Int × List Char)
  | [] => none
  | c :: cs =>
    if c = '-' then
      match parseNatChars cs with
      | some (n, r) => some (-(n : Int), r)
      | none => none
    else
      match parseNatChars (c :: cs) with
      | some (n, r) => some ((n : Int), r)
      | none => none

/-- `true` when the input is exhausted or its next character is not a
digit: the boundary after which a number literal is complete. -/
def stopChars : List Char → Bool
  | [] => true
  | c :: _ => !(isDig c)

mutual

/-- Parse one JSON value. -/
def parseV : Nat → List Char → Option (Json × List Char)
  | 0, _ => none
  | fuel+1, cs =>
    match cs with
    | [] => none
    | c :: cs1 =>
      if c = 'n' then
        match cs1 with
        | 'u' :: 'l' :: 'l' :: rest => some (.null, rest)
        | _ => none
      else if c = 't' then
        match cs1 with
        | 'r' :: 'u' :: 'e' :: rest => some (.boolean true, rest)
        | _ => none
      else if c = 'f' then
        match cs1 with
        | 'a' :: 'l' :: 's' :: 'e' :: rest => some (.boolean false, rest)
        | _ => none
      else if c = '"' then
        match parseStrBody cs1 with
        | some (s, r) => some (.str s, r)
        | none => none
      else if c = '[' then
        match parseElems fuel cs1 with
        | some (xs, r) => some (.arr xs, r)
        | none => none
      else if c = '{' then
        match parseMembers fuel cs1 with
        | some (kvs, r) => some (.obj kvs, r)
        | none => none
      else
        match parseIntChars (c :: cs1) with
        | some (n, r) => some (.num n, r)
        | none => none
termination_by structural fuel _ => fuel

/-- Parse the elements of an array after its opening bracket, including
the closing bracket. -/
def parseElems : Nat → List Char → Option (List Json × List Char)
  | 0, _ => none
  | fuel+1, cs =>
    match cs with
    | [] => none
    | c :: cs1 =>
      if c = ']' then some ([], cs1)
      else
        match parseV fuel (c :: cs1) with
        | none => none
        | some (v, r) =>
          match r with
          | [] => none
          | c2 :: r2 =>
            if c2 = ',' then
              match parseElems fuel r2 with
              | some (vs, rr) => some (v :: vs, rr)
              | none => none
            else if c2 = ']' then some ([v], r2)
            else none
termination_by structural fuel _ => fuel

/-- Parse the members of an object after its opening brace, including the
closing brace. -/
def parseMembers : Nat → List Char → Option (List (List Char × Json) × List Char)
  | 0, _ => none
  | fuel+1, cs =>
    match cs with
    | [] => none
    | c :: cs1 =>
      if c = '}' then some ([], cs1)
      else if c = '"' then
        match parseStrBody cs1 with
        | none => none
        | some (k, r) =>
          match r with
          | [] => none
          | c2 :: r2 =>
            if c2 = ':' then
              match parseV fuel r2 with
              | none => none
              | some (v, r3) =>
                match r3 with
                | [] => none
                | c3 :: r4 =>
                  if c3 = ',' then
                    match parseMembers fuel r4 with
                    | some (kvs, rr) => some ((k, v) :: kvs, rr)
                    | none => none
                  else if c3 = '}' then some ([(k, v)], r4)
                  else none
            else none
      else none
termination_by structural fuel _ => fuel

end

/-- Parse a whole document: one JSON value followed by end of input
(model of `json.load`; `none` models `json.JSONDecodeError`). -/
def parseJsonChars (cs : List Char) : Option Json :=
  match parseV (cs.length + 1) cs with
  | some (j, []) => some j
  | _ => none

/-! ### The serializer/parser round trip -/

/-- Value of a little-endian digit list. -/
def valLE (l : List Nat) : Nat := l.foldr (fun d a => d + 10 * a) 0

theorem digChar_spec : ∀ d, d < 10 → isDig (digChar d) = true ∧ digVal (digChar d) = d := by
  decide

theorem natDigitsAux_lt : ∀ fuel n d, d ∈ natDigitsAux fuel n → d < 10 := by
  intro fuel
  induction fuel with
  | zero => simp [natDigitsAux]
  | succ fuel ih =>
    intro n d hd
    by_cases h0 : n = 0
    · simp [natDigitsAux, h0] at hd
    · simp only [natDigitsAux, if_neg h0, List.mem_cons] at hd
      rcases hd with h | h
      · subst h; exact Nat.mod_lt _ (by omega)
      · exact ih _ _ h

theorem natDigitsAux_val : ∀ fuel n, n ≤ fuel → valLE (natDigitsAux fuel n) = n := by
  intro fuel
  induction fuel with
  | zero =>
    intro n h
    have h0 : n = 0 := by omega
    subst h0
    rfl
  | succ fuel ih =>
    intro n h
    by_cases h0 : n = 0
    · subst h0; simp [natDigitsAux, valLE]
    · have hdiv : n / 10 ≤ fuel := by
        have := Nat.div_lt_self (Nat.pos_of_ne_zero h0) (by norm_num : 1 < 10)
        omega
      simp only [natDigitsAux, if_neg h0]
      show n % 10 + 10 * valLE (natDigitsAux fuel (n / 10)) = n
      rw [ih _ hdiv]
      omega

theorem foldl_reverse_val : ∀ (l : List Nat) (acc : Nat),
    (l.reverse).foldl (fun a d => 10 * a + d) acc = acc * 10 ^ l.length + valLE l := by
  intro l
  induction l with
  | nil => intro acc; simp [valLE]
  | cons d l ih =>
    intro acc
    rw [List.reverse_cons, List.foldl_append, ih]
    show 10 * (acc * 10 ^ l.length + valLE l) + d
      = acc * 10 ^ (l.length + 1) + (d + 10 * valLE l)
    rw [pow_succ]
    ring

theorem foldl_map_digits : ∀ (l : List Nat) (acc : Nat), (∀ d ∈ l, d < 10) →
    ((l.map digChar).foldl (fun a c => 10 * a + digVal c) acc)
      = l.foldl (fun a d => 10 * a + d) acc := by
  intro l
  induction l with
  | nil => intro acc _; rfl
  | cons d l ih =>
    intro acc hall
    have hd : d < 10 := hall d (by simp)
    simp only [List.map_cons, List.foldl_cons]
    rw [(digChar_spec d hd).2]
    exact ih _ (fun x hx => hall x (by simp [hx]))

theorem natToChars_ne_nil (n : Nat) : natToChars n ≠ [] := by
  by_cases h0 : n = 0
  · subst h0; simp [natToChars]
  · simp only [natToChars, if_neg h0]
    cases hn : n with
    | zero => exact absurd hn h0
    | succ m =>
      simp [natDigitsRev, natDigitsAux, hn]

theorem natToChars_all_dig : ∀ n c, c ∈ natToChars n → isDig c = true := by
  intro n c hc
  by_cases h0 : n = 0
  · subst h0; simp [natToChars] at hc; subst hc; decide
  · simp only [natToChars, if_neg h0, List.mem_map, List.mem_reverse] at hc
    obtain ⟨d, hd, rfl⟩ := hc
    exact (digChar_spec d (natDigitsAux_lt n n d hd)).1

theorem natToChars_cons (n : Nat) : ∃ c cs, natToChars n = c :: cs ∧ isDig c = true := by
  cases h : natToChars n with
  | nil => exact absurd h (natToChars_ne_nil n)
  | cons c cs =>
    exact ⟨c, cs, rfl, natToChars_all_dig n c (by rw [h]; simp)⟩

theorem natToChars_val (n : Nat) :
    (natToChars n).foldl (fun a c => 10 * a + digVal c) 0 = n := by
  by_cases h0 : n = 0
  · subst h0; decide
  · simp only [natToChars, if_neg h0]
    rw [foldl_map_digits _ _ (fun d hd => natDigitsAux_lt n n d (by
      simpa [natDigitsRev] using (List.mem_reverse.mp hd)))]
    rw [foldl_reverse_val]
    simp [natDigitsRev, natDigitsAux_val n n le_rfl]

theorem takeWhile_all_append : ∀ (l rest : List Char),
    (∀ c ∈ l, isDig c = true) → stopChars rest = true →
    ((l ++ rest).takeWhile isDig = l ∧ (l ++ rest).dropWhile isDig = rest) := by
  intro l
  induction l with
  | nil =>
    intro rest _ hstop
    cases rest with
    | nil => exact ⟨rfl, rfl⟩
    | cons c r =>
      have hc : isDig c = false := by
        simpa [stopChars] using hstop
      simp [List.takeWhile, List.dropWhile, hc]
  | cons a l ih =>
    intro rest hall hstop
    have ha : isDig a = true := hall a (by simp)
    obtain ⟨h1, h2⟩ := ih rest (fun c hc => hall c (by simp [hc])) hstop
    simp [List.takeWhile, List.dropWhile, ha, h1, h2]

theorem parseNat_round (n : Nat) (rest : List Char) (hstop : stopChars rest = true) :
    parseNatChars (natToChars n ++ rest) = some (n, rest) := by
  obtain ⟨htake, hdrop⟩ := takeWhile_all_append (natToChars n) rest (natToChars_all_dig n) hstop
  simp only [parseNatChars, htake, hdrop]
  rw [if_neg (by simpa [List.isEmpty_iff] using natToChars_ne_nil n)]
  rw [natToChars_val]

theorem isDig_ne_lits (c : Char) (h : isDig c = true) :
    c ≠ 'n' ∧ c ≠ 't' ∧ c ≠ 'f' ∧ c ≠ '"' ∧ c ≠ '[' ∧ c ≠ '{' ∧ c ≠ '-' ∧ c ≠ ']' ∧ c ≠ '}' := by
  refine ⟨?_, ?_, ?_, ?_, ?_, ?_, ?_, ?_, ?_⟩ <;>
    · intro hc; subst hc; exact absurd h (by decide)

theorem parseInt_round (n : Int) (rest : List Char) (hstop : stopChars rest = true) :
    parseIntChars (intToChars n ++ rest) = some (n, rest) := by
  cases n with
  | ofNat m =>
    obtain ⟨c, cs, hcons, hdig⟩ := natToChars_cons m
    have hne : c ≠ '-' := (isDig_ne_lits c hdig).2.2.2.2.2.2.1
    have : intToChars (Int.ofNat m) ++ rest = c :: (cs ++ rest) := by
      simp [intToChars, hcons]
    rw [this]
    simp only [parseIntChars, if_neg hne]
    have hcs : c :: (cs ++ rest) = natToChars m ++ rest := by simp [hcons]
    rw [hcs, parseNat_round m rest hstop]
    rfl
  | negSucc m =>
    have : intToChars (Int.negSucc m) ++ rest = '-' :: (natToChars (m + 1) ++ rest) := by
      simp [intToChars]
    rw [this]
    simp only [parseIntChars, if_pos rfl]
    rw [parseNat_round (m + 1) rest hstop]
    simp [Int.negSucc_eq]

theorem sizeV_pos : ∀ j : Json, 1 ≤ sizeV j := by
  intro j
  cases j <;> simp [sizeV]

theorem sizeL_pos : ∀ xs : List Json, 1 ≤ sizeL xs := by
  intro xs
  cases xs with
  | nil => simp [sizeL]
  | cons x xs => have := sizeV_pos x; simp [sizeL]; omega

theorem sizeM_pos : ∀ kvs : List (List Char × Json), 1 ≤ sizeM kvs := by
  intro kvs
  cases kvs with
  | nil => simp [sizeM]
  | cons kv kvs => obtain ⟨k, v⟩ := kv; have := sizeV_pos v; simp [sizeM]; omega

theorem intToChars_cons (n : Int) :
    ∃ c cs, intToChars n = c :: cs ∧ (isDig c = true ∨ c = '-') := by
  cases n with
  | ofNat m =>
    obtain ⟨c, cs, hcons, hdig⟩ := natToChars_cons m
    exact ⟨c, cs, by simp [intToChars, hcons], Or.inl hdig⟩
  | negSucc m => exact ⟨'-', natToChars (m + 1), rfl, Or.inr rfl⟩

theorem headQ_ne_lits (c : Char) (h : isDig c = true ∨ c = '-') :
    c ≠ 'n' ∧ c ≠ 't' ∧ c ≠ 'f' ∧ c ≠ '"' ∧ c ≠ '[' ∧ c ≠ '{' := by
  rcases h with h | rfl
  · have t := isDig_ne_lits c h
    exact ⟨t.1, t.2.1, t.2.2.1, t.2.2.2.1, t.2.2.2.2.1, t.2.2.2.2.2.1⟩
  · exact ⟨by decide, by decide, by decide, by decide, by decide, by decide⟩

theorem renderV_cons : ∀ j : Json, ∃ c cs, renderV j = c :: cs ∧ c ≠ ']' ∧ c ≠ '}' := by
  intro j
  cases j with
  | null => exact ⟨'n', ['u', 'l', 'l'], rfl, by decide, by decide⟩
  | boolean b =>
    cases b with
    | false => exact ⟨'f', ['a', 'l', 's', 'e'], rfl, by decide, by decide⟩
    | true => exact ⟨'t', ['r', 'u', 'e'], rfl, by decide, by decide⟩
  | num n =>
    obtain ⟨c, cs, hcons, hkind⟩ := intToChars_cons n
    have hne : c ≠ ']' ∧ c ≠ '}' := by
      rcases hkind with h | rfl
      · exact ⟨(isDig_ne_lits c h).2.2.2.2.2.2.2.1, (isDig_ne_lits c h).2.2.2.2.2.2.2.2⟩
      · exact ⟨by decide, by decide⟩
    exact ⟨c, cs, by simp [renderV, hcons], hne.1, hne.2⟩
  | str s => exact ⟨'"', escChars s ++ ['"'], rfl, by decide, by decide⟩
  | arr xs => exact ⟨'[', renderElemsChars xs ++ [']'], rfl, by decide, by decide⟩
  | obj kvs => exact ⟨'{', renderMembersChars kvs ++ ['}'], rfl, by decide, by decide⟩

theorem parseStr_round : ∀ (s rest : List Char),
    parseStrBody (escChars s ++ '"' :: rest) = some (s, rest) := by
  intro s
  induction s with
  | nil =>
    intro rest
    show parseStrBody ('"' :: rest) = some ([], rest)
    rw [parseStrBody.eq_def]
    simp
  | cons c s ih =>
    intro rest
    by_cases h1 : c = '"'
    · subst h1
      show parseStrBody (('\\' :: '"' :: []) ++ escChars s ++ '"' :: rest) = _
      rw [parseStrBody.eq_def]
      simp [ih]
    · by_cases h2 : c = '\\'
      · subst h2
        show parseStrBody (('\\' :: '\\' :: []) ++ escChars s ++ '"' :: rest) = _
        rw [parseStrBody.eq_def]
        simp [ih]
      · simp only [escChars, if_neg h1, if_neg h2, List.cons_append, List.nil_append]
        rw [parseStrBody.eq_def]
        simp [h1, h2, ih]

/-- The parser reads back exactly what the renderer wrote, for values,
element lists and member lists, given enough fuel. -/
theorem parse_render : ∀ fuel : Nat,
    (∀ j rest, sizeV j ≤ fuel → stopChars rest = true →
      parseV fuel (renderV j ++ rest) = some (j, rest))
    ∧ (∀ xs rest, sizeL xs ≤ fuel →
      parseElems fuel (renderElemsChars xs ++ ']' :: rest) = some (xs, rest))
    ∧ (∀ kvs rest, sizeM kvs ≤ fuel →
      parseMembers fuel (renderMembersChars kvs ++ '}' :: rest) = some (kvs, rest)) := by
  intro fuel
  induction fuel with
  | zero =>
    refine ⟨?_, ?_, ?_⟩
    · intro j rest hsz _; exact absurd hsz (by have := sizeV_pos j; omega)
    · intro xs rest hsz; exact absurd hsz (by have := sizeL_pos xs; omega)
    · intro kvs rest hsz; exact absurd hsz (by have := sizeM_pos kvs; omega)
  | succ fuel ih =>
    obtain ⟨ihV, ihL, ihM⟩ := ih
    refine ⟨?_, ?_, ?_⟩
    · intro j rest hsz hstop
      cases j with
      | null =>
        show parseV (fuel+1) ('n' :: 'u' :: 'l' :: 'l' :: rest) = _
        rw [parseV.eq_def]
        simp
      | boolean b =>
        cases b with
        | true =>
          show parseV (fuel+1) ('t' :: 'r' :: 'u' :: 'e' :: rest) = _
          rw [parseV.eq_def]
          simp
        | false =>
          show parseV (fuel+1) ('f' :: 'a' :: 'l' :: 's' :: 'e' :: rest) = _
          rw [parseV.eq_def]
          simp
      | num n =>
        obtain ⟨c, cs0, hcons, hkind⟩ := intToChars_cons n
        obtain ⟨hn1, hn2, hn3, hn4, hn5, hn6⟩ := headQ_ne_lits c hkind
        have heq : renderV (Json.num n) ++ rest = c :: (cs0 ++ rest) := by
          simp [renderV, hcons]
        rw [heq, parseV.eq_def]
        have hint : parseIntChars (c :: (cs0 ++ rest)) = some (n, rest) := by
          rw [show c :: (cs0 ++ rest) = intToChars n ++ rest by simp [hcons]]
          exact parseInt_round n rest hstop
        simp [hn1, hn2, hn3, hn4, hn5, hn6, hint]
      | str s =>
        have heq : renderV (Json.str s) ++ rest = '"' :: (escChars s ++ '"' :: rest) := by
          simp [renderV]
        rw [heq, parseV.eq_def]
        simp [parseStr_round]
      | arr xs =>
        have hsz' : sizeL xs ≤ fuel := by simp [sizeV] at hsz; omega
        have heq : renderV (Json.arr xs) ++ rest = '[' :: (renderElemsChars xs ++ ']' :: rest) := by
          simp [renderV]
        rw [heq, parseV.eq_def]
        simp [ihL xs rest hsz']
      | obj kvs =>
        have hsz' : sizeM kvs ≤ fuel := by simp [sizeV] at hsz; omega
        have heq : renderV (Json.obj kvs) ++ rest = '{' :: (renderMembersChars kvs ++ '}' :: rest) := by
          simp [renderV]
        rw [heq, parseV.eq_def]
        simp [ihM kvs rest hsz']
    · intro xs rest hsz
      cases xs with
      | nil =>
        show parseElems (fuel+1) (']' :: rest) = _
        rw [parseElems.eq_def]
        simp
      | cons x xs2 =>
        obtain ⟨c, cs0, hcons, hne1, hne2⟩ := renderV_cons x
        cases xs2 with
        | nil =>
          have hszx : sizeV x ≤ fuel := by simp [sizeL] at hsz; omega
          have hv : parseV fuel (c :: (cs0 ++ ']' :: rest)) = some (x, ']' :: rest) := by
            rw [show c :: (cs0 ++ ']' :: rest) = renderV x ++ ']' :: rest by simp [hcons]]
            exact ihV x (']' :: rest) hszx rfl
          have heq : renderElemsChars [x] ++ ']' :: rest = c :: (cs0 ++ ']' :: rest) := by
            simp [renderElemsChars, hcons]
          rw [heq, parseElems.eq_def]
          simp [hne1, hv]
        | cons y t =>
          have hposy := sizeV_pos y
          have hposx := sizeV_pos x
          have hszx : sizeV x ≤ fuel := by simp [sizeL] at hsz; omega
          have hszt : sizeL (y :: t) ≤ fuel := by simp [sizeL] at hsz ⊢; omega
          have hv : parseV fuel (c :: (cs0 ++ ',' :: (renderElemsChars (y :: t) ++ ']' :: rest)))
              = some (x, ',' :: (renderElemsChars (y :: t) ++ ']' :: rest)) := by
            rw [show c :: (cs0 ++ ',' :: (renderElemsChars (y :: t) ++ ']' :: rest))
                = renderV x ++ ',' :: (renderElemsChars (y :: t) ++ ']' :: rest) by simp [hcons]]
            exact ihV x _ hszx rfl
          have heq : renderElemsChars (x :: y :: t) ++ ']' :: rest
              = c :: (cs0 ++ ',' :: (renderElemsChars (y :: t) ++ ']' :: rest)) := by
            simp [renderElemsChars, hcons]
          rw [heq, parseElems.eq_def]
          simp [hne1, hv, ihL (y :: t) rest hszt]
    · intro kvs rest hsz
      cases kvs with
      | nil =>
        show parseMembers (fuel+1) ('}' :: rest) = _
        rw [parseMembers.eq_def]
        simp
      | cons kv kvs2 =>
        obtain ⟨k, v⟩ := kv
        cases kvs2 with
        | nil =>
          have hszv : sizeV v ≤ fuel := by simp [sizeM] at hsz; omega
          have hstr := parseStr_round k (':' :: (renderV v ++ '}' :: rest))
          have hv := ihV v ('}' :: rest) hszv rfl
          have heq : renderMembersChars [(k, v)] ++ '}' :: rest
              = '"' :: (escChars k ++ '"' :: (':' :: (renderV v ++ '}' :: rest))) := by
            simp [renderMembersChars]
          rw [heq, parseMembers.eq_def]
          simp [hstr, hv]
        | cons kv2 t =>
          obtain ⟨k2, v2⟩ := kv2
          have hposv2 := sizeV_pos v2
          have hposv := sizeV_pos v
          have hszv : sizeV v ≤ fuel := by simp [sizeM] at hsz; omega
          have hszt : sizeM ((k2, v2) :: t) ≤ fuel := by simp [sizeM] at hsz ⊢; omega
          have hstr := parseStr_round k
            (':' :: (renderV v ++ ',' :: (renderMembersChars ((k2, v2) :: t) ++ '}' :: rest)))
          have hv := ihV v (',' :: (renderMembersChars ((k2, v2) :: t) ++ '}' :: rest)) hszv rfl
          have heq : renderMembersChars ((k, v) :: (k2, v2) :: t) ++ '}' :: rest
              = '"' :: (escChars k ++ '"' :: (':' :: (renderV v
                  ++ ',' :: (renderMembersChars ((k2, v2) :: t) ++ '}' :: rest)))) := by
            simp [renderMembersChars]
          rw [heq, parseMembers.eq_def]
          simp [hstr, hv, ihM ((k2, v2) :: t) rest hszt]

mutual

theorem sizeV_le_render : ∀ j : Json, sizeV j ≤ (renderV j).length + 1
  | .null => by simp [sizeV, renderV]
  | .boolean true => by simp [sizeV, renderV]
  | .boolean false => by simp [sizeV, renderV]
  | .num n => by simp [sizeV]
  | .str s => by simp [sizeV]
  | .arr xs => by
    have h := sizeL_le_render xs
    simp only [sizeV, renderV, List.length_cons, List.length_append]
    simp
    omega
  | .obj kvs => by
    have h := sizeM_le_render kvs
    simp only [sizeV, renderV, List.length_cons, List.length_append]
    simp
    omega

theorem sizeL_le_render : ∀ xs : List Json, sizeL xs ≤ (renderElemsChars xs).length + 2
  | [] => by simp [sizeL]
  | [x] => by
    have h := sizeV_le_render x
    simp only [sizeL, sizeV, renderElemsChars]
    simp [sizeL]
    omega
  | x :: y :: t => by
    have h1 := sizeV_le_render x
    have h2 := sizeL_le_render (y :: t)
    simp only [sizeL] at h2
    simp only [sizeL, renderElemsChars, List.length_append, List.length_cons]
    omega

theorem sizeM_le_render : ∀ kvs : List (List Char × Json), sizeM kvs ≤ (renderMembersChars kvs).length + 2
  | [] => by simp [sizeM]
  | [(k, v)] => by
    have h := sizeV_le_render v
    simp only [sizeM, renderMembersChars, List.length_append, List.length_cons]
    simp [sizeM]
    omega
  | (k, v) :: (k2, v2) :: t => by
    have h1 := sizeV_le_render v
    have h2 := sizeM_le_render ((k2, v2) :: t)
    simp only [sizeM] at h2
    simp only [sizeM, renderMembersChars, List.length_append, List.length_cons]
    omega

end

/-- `json.load` reads back exactly what `json.dump` wrote: the document
round trip. -/
theorem parseJson_render (j : Json) : parseJsonChars (renderV j) = some j := by
  have h := (parse_render ((renderV j).length + 1)).1 j [] (sizeV_le_render j) rfl
  rw [List.append_nil] at h
  unfold parseJsonChars
  rw [h]

/-! ## src/com.py — ConfigurationManager -/

/-- The observable state of the configuration file on disk. -/
inductive FileState where
  | missing : FileState
  | present (content : List Char) : FileState

/-- The Python exceptions the embedded code can raise. -/
inductive PyErr where
  | fileNotFound : PyErr
  | jsonDecodeErr : PyErr
  | attributeErr : PyErr
deriving DecidableEq

namespace ConfigurationManager

/-- Embedding of `ConfigurationManager.load_config` (src/com.py:47-55):
open and `json.load` the file; `FileNotFoundError` is caught and yields the
empty store `{}`; content that does not parse raises `json.JSONDecodeError`,
which `load_config` does not catch (modelled as `.error .jsonDecodeErr`). -/
def load_config : FileState → Except PyErr Json
  | .missing => .ok (.obj [])
  | .present cs =>
    match parseJsonChars cs with
    | some j => .ok j
    | none => .error .jsonDecodeErr

/-- Embedding of `ConfigurationManager.set` (src/com.py:62-64) on an object
store: `self.config[key] = value` — an existing key keeps its position and
gets the new value, a new key is appended (Python dict semantics). -/
def set (m : ConfigMap) (key : List Char) (value : Json) : ConfigMap :=
  match m with
  | [] => [(key, value)]
  | (k0, v0) :: t =>
    if k0 = key then (key, value) :: t else (k0, v0) :: set t key value

/-- Embedding of `ConfigurationManager.save_config` (src/com.py:75-78):
`json.dump` the whole in-memory map over the backing file. -/
def save_config (m : ConfigMap) : FileState := .present (renderV (.obj m))

/-- A map obtained from a sequence of `set` calls starting from a store. -/
def applySets (m : ConfigMap) (ops : List (List Char × Json)) : ConfigMap :=
  ops.foldl (fun acc kv => set acc kv.1 kv.2) m

/-- The fields of `fileWatcher`'s loop state that the claims observe:
the watcher-local `comandosText` (last-seen raw file text) and the
manager-shared `config` map and `file_change` flag. -/
structure WatchState where
  comandosText : List Char
  config : Json
  file_change : Bool

/-- Embedding of `ConfigurationManager.is_updated` (src/com.py:66-68):
return the `file_change` flag. -/
def is_updated (s : WatchState) : Bool := s.file_change

/-- Embedding of `open(...).read()` at the head of `fileWatcher`
(src/com.py:82-84 and 86-88): a missing file raises `FileNotFoundError`. -/
def readFileText : FileState → Except PyErr (List Char)
  | .missing => .error .fileNotFound
  | .present cs => .ok cs

/-- One iteration of the `while` loop of `fileWatcher` (src/com.py:85-95),
given the file state `fs` the tick observes.  Returns the state during the
sleep (after the change check set `comandosText`, `config` and
`file_change`) and the state after the post-sleep `file_change = False`.
An uncaught exception (missing file on `open`, or a parse failure inside
the fresh `load_config`) kills the thread and is modelled as `.error`. -/
def watcherTick (fs : FileState) (st : WatchState) :
    Except PyErr (WatchState × WatchState) :=
  match readFileText fs with
  | .error e => .error e
  | .ok content =>
    if content = st.comandosText then
      .ok (st, { st with file_change := false })
    else
      match load_config fs with
      | .error e => .error e
      | .ok cfg =>
        let mid : WatchState :=
          { comandosText := content, config := cfg, file_change := true }
        .ok (mid, { mid with file_change := false })

/-- The watcher loop over a list of per-tick file states, collecting each
tick's (during-sleep, after-sleep) state pair. -/
def runTicks : WatchState → List FileState → Except PyErr (List (WatchState × WatchState))
  | _, [] => .ok []
  | st, fs :: rest =>
    match watcherTick fs st with
    | .error e => .error e
    | .ok (mid, stEnd) =>
      match runTicks stEnd rest with
      | .error e => .error e
      | .ok l => .ok ((mid, stEnd) :: l)

/-- Embedding of `ConfigurationManager.fileWatcher` (src/com.py:80-95): an
initial read of the file (outside any try/except), then the polling loop.
`cfg0` is the in-memory map when the thread starts. -/
def fileWatcher (fs0 : FileState) (cfg0 : Json) (ticks : List FileState) :
    Except PyErr (List (WatchState × WatchState)) :=
  match readFileText fs0 with
  | .error e => .error e
  | .ok c0 => runTicks ⟨c0, cfg0, false⟩ ticks

/-- The attributes `__init__` (src/com.py:25-36) creates on the instance:
`stop_event` and `config_watcher_thread` exist only when `watch_file` is
true. -/
structure Attrs where
  file_change : Bool
  config : Json
  stop_event : Option Bool
  config_watcher_thread : Option Unit

/-- Embedding of `ConfigurationManager.__init__` (src/com.py:25-36):
`file_change = False`, `config = load_config()` (whose parse error would
propagate), and the stop event and watcher thread objects created only
under `watch_file`. -/
def mkManager (fs : FileState) (watch_file : Bool) : Except PyErr Attrs :=
  match load_config fs with
  | .error e => .error e
  | .ok cfg =>
    .ok { file_change := false, config := cfg,
          stop_event := if watch_file then some false else none,
          config_watcher_thread := if watch_file then some () else none }

/-- Embedding of `ConfigurationManager.stop` (src/com.py:38-41):
`self.stop_event.set()` — an `AttributeError` when `stop_event` was never
created. -/
def stop (a : Attrs) : Except PyErr Attrs :=
  match a.stop_event with
  | none => .error .attributeErr
  | some _ => .ok { a with stop_event := some true }

/-- Embedding of `ConfigurationManager.join` (src/com.py:43-45):
`self.config_watcher_thread.join()` — an `AttributeError` when the thread
object was never created. -/
def join (a : Attrs) : Except PyErr Unit :=
  match a.config_watcher_thread with
  | none => .error .attributeErr
  | some _ => .ok ()

end ConfigurationManager

/-! ## src/ini_camera.py — the image-acquisition pipeline -/

/-- One captured exposure: `frame.image_buffer` is a 2-D array given as its
list of rows (`shape[0]` rows of `shape[1]` pixels). -/
structure Frame where
  image_buffer : List (List Nat)

/-- `frame.image_buffer.shape[0]`. -/
def Frame.height (f : Frame) : Nat := f.image_buffer.length

/-- `frame.image_buffer.shape[1]`. -/
def Frame.width (f : Frame) : Nat := (f.image_buffer.headD []).length

/-- A converted, consumer-ready PIL image: RGB (rows of pixels of 3 channel
values) or single-channel grayscale (the raw buffer as-is). -/
inductive PILImage where
  | rgb (rows : List (List (List Nat))) : PILImage
  | gray (rows : List (List Nat)) : PILImage

/-- Model of the vendor SDK's `MonoToColorProcessor.transform_to_24`
(external collaborator): from the raw sensor buffer and the requested
width/height it produces a flat RGB24 buffer holding 3 channel values per
pixel, row-major.  The per-pixel color math is the SDK's own; the model
replicates each source pixel into its 3 channels. -/
def transform_to_24 (buf : List (List Nat)) (width height : Nat) : List Nat :=
  (List.range (height * width)).flatMap (fun i =>
    let p := (buf.getD (i / width) []).getD (i % width) 0
    [p, p, p])

/-- Model of numpy `reshape(height, width, 3)` on a flat buffer: element
`[r][c][ch]` is the flat element at `r*width*3 + c*3 + ch`. -/
def reshape3 (flat : List Nat) (height width : Nat) : List (List (List Nat)) :=
  (List.range height).map (fun r =>
    (List.range width).map (fun c =>
      (List.range 3).map (fun ch => flat.getD (r * (width * 3) + c * 3 + ch) 0)))

/-- The cached `_image_width`/`_image_height` fields of
`ImageAcquisitionThread`. -/
structure ColorCtx where
  image_width : Nat
  image_height : Nat
deriving DecidableEq

namespace ImageAcquisitionThread

/-- Embedding of `ImageAcquisitionThread._get_color_image`
(src/ini_camera.py:83-98): read the frame's dimensions, update the cached
dimensions when they differ, run `transform_to_24` with the cached
dimensions and reshape to height × width × 3. -/
def get_color_image (ctx : ColorCtx) (f : Frame) : ColorCtx × PILImage :=
  let width := f.width
  let height := f.height
  let ctx' : ColorCtx :=
    if width ≠ ctx.image_width ∨ height ≠ ctx.image_height then
      { image_width := width, image_height := height }
    else ctx
  let color_image_data := transform_to_24 f.image_buffer ctx'.image_width ctx'.image_height
  (ctx', .rgb (reshape3 color_image_data ctx'.image_height ctx'.image_width))

/-- Embedding of `ImageAcquisitionThread._get_image`
(src/ini_camera.py:100-103): the raw buffer passed through as a
single-channel image. -/
def get_image (f : Frame) : PILImage := .gray f.image_buffer

/-- The conversion step of one loop iteration: color frames go through
`_get_color_image` (which may update the cached dimensions), mono frames
through `_get_image`. -/
def convertImage (is_color : Bool) (ctx : ColorCtx) (f : Frame) : ColorCtx × PILImage :=
  if is_color then get_color_image ctx f else (ctx, get_image f)

/-- Model of `queue.Queue(maxsize=cap).put_nowait`: `none` models raising
`queue.Full` (the queue unchanged), otherwise the item is appended. -/
def put_nowait (cap : Nat) (q : List PILImage) (img : PILImage) : Option (List PILImage) :=
  if cap ≤ q.length then none else some (q ++ [img])

/-- The loop state of `ImageAcquisitionThread.run` (src/ini_camera.py:105-127):
the shared image queue's contents, the pairing counter `nr`, the number of
`new_image` signal emissions so far, and the cached color dimensions. -/
structure AcqState where
  image_queue : List PILImage
  nr : Nat
  emits : Nat
  ctx : ColorCtx

/-- What the environment does in one iteration of the `run` loop:
`get_pending_frame_or_null` returns no frame, returns a frame (and the
conversion succeeds), raises, the conversion raises, or — interleaved from
the consumer thread — a `queue.get` removes the oldest queued image. -/
inductive AcqEvent where
  | noFrame : AcqEvent
  | frame (f : Frame) : AcqEvent
  | pollError : AcqEvent
  | convError (f : Frame) : AcqEvent
  | consumerGet : AcqEvent

/-- One iteration of the `while not stop_event` loop of
`ImageAcquisitionThread.run` (src/ini_camera.py:109-130), faithful to the
source's order: `nr += 1` on a frame, then conversion, then `put_nowait`;
`except queue.Full` resets `nr` to 0 and continues; any other exception
breaks out of the loop (`none`); on success the signal is emitted exactly
when `nr == 2`, and `nr` then resets to 0. -/
def stepIter (cap : Nat) (is_color emit_signal : Bool) (s : AcqState) (ev : AcqEvent) :
    Option AcqState :=
  match ev with
  | .noFrame => some s
  | .pollError => none
  | .convError _ => none
  | .consumerGet => some { s with image_queue := s.image_queue.tail }
  | .frame f =>
    let nr1 := s.nr + 1
    let conv := convertImage is_color s.ctx f
    match put_nowait cap s.image_queue conv.2 with
    | none => some { s with nr := 0, ctx := conv.1 }
    | some q' =>
      if nr1 = 2 then
        some { image_queue := q', nr := 0,
               emits := s.emits + (if emit_signal then 1 else 0), ctx := conv.1 }
      else
        some { image_queue := q', nr := nr1, emits := s.emits, ctx := conv.1 }

/-- The `run` loop over a list of iteration events: the trace of states
after each processed iteration.  An exhausted list models the cooperative
stop (`stop_event` observed set); a fatal iteration ends the trace with the
remaining events unprocessed (no retry). -/
def runLoop (cap : Nat) (is_color emit_signal : Bool) :
    AcqState → List AcqEvent → List AcqState
  | _, [] => []
  | s, ev :: evs =>
    match stepIter cap is_color emit_signal s ev with
    | none => []
    | some s' => s' :: runLoop cap is_color emit_signal s' evs

/-- What `run` leaves behind after the loop exits
(src/ini_camera.py:132-135): the state trace, and the two dispose calls
that happen exactly when the sensor is color. -/
structure RunResult where
  states : List AcqState
  mono_to_color_processor_disposed : Bool
  mono_to_color_sdk_disposed : Bool

/-- Embedding of `ImageAcquisitionThread.run` (src/ini_camera.py:105-135):
the loop followed by the color-resource disposal on every exit path. -/
def run (cap : Nat) (is_color emit_signal : Bool) (s0 : AcqState) (evs : List AcqEvent) :
    RunResult :=
  { states := runLoop cap is_color emit_signal s0 evs,
    mono_to_color_processor_disposed := is_color,
    mono_to_color_sdk_disposed := is_color }

/-- The initial loop state: `nr = 0` (src/ini_camera.py:106), no emissions
yet, the queue as handed over (the internally-owned queue starts empty),
and the cached dimensions from `__init__`. -/
def initState (ctx : ColorCtx) : AcqState :=
  { image_queue := [], nr := 0, emits := 0, ctx := ctx }

end ImageAcquisitionThread

/-- The environment of `Camera.initialize_camera`
(src/ini_camera.py:157-187): what `discover_available_cameras` returns and
whether the subsequent open/configure/arm calls raise. -/
structure CamEnv where
  available_cameras : List Nat
  open_fails : Bool

/-- The `self.camera` attribute after initialization: never assigned
(generic exception path), assigned `None` (the `CameraNotFoundError`
handler), or an opened camera. -/
inductive CamAttr where
  | unassigned : CamAttr
  | noneVal : CamAttr
  | handle (h : Nat) : CamAttr
deriving DecidableEq

/-- The observable result of `Camera.initialize_camera`. -/
structure CameraObj where
  connected : Bool
  camera : CamAttr
deriving DecidableEq

/-- Embedding of `Camera.initialize_camera` (src/ini_camera.py:157-187):
an empty discovery raises `CameraNotFoundError`, which the function itself
catches, setting `self.camera = None` and leaving `connected` false; any
other exception leaves `self.camera` unassigned; on success the first
available camera is opened, configured, armed, and `connected` is set. -/
def Camera.initialize_camera (env : CamEnv) : CameraObj :=
  if env.available_cameras.length < 1 then
    { connected := false, camera := .noneVal }
  else if env.open_fails then
    { connected := false, camera := .unassigned }
  else
    { connected := true, camera := .handle (env.available_cameras.headD 0) }

/-- The observable result of `ThorlabsCameraHandler.initialize_camera`:
whether the handler is connected, whether the `ImageAcquisitionThread` was
constructed, and `is_alive` (set only by `activate_camera_instance`, which
`initialize_camera` does not call). -/
structure HandlerObj where
  connected : Bool
  image_acquisition_thread : Option ColorCtx
  is_alive : Bool

/-- Embedding of `ThorlabsCameraHandler.initialize_camera`
(src/ini_camera.py:227-237): build the `Camera`, copy its `connected`
state, and construct the `ImageAcquisitionThread` only when connected; the
thread is not started here (`is_alive` stays false until
`activate_camera_instance`). -/
def ThorlabsCameraHandler.initialize_camera (env : CamEnv) (ctx : ColorCtx) : HandlerObj :=
  let cam := Camera.initialize_camera env
  { connected := cam.connected,
    image_acquisition_thread := if cam.connected then some ctx else none,
    is_alive := false }

/-! ## Helper lemmas about the acquisition loop -/

namespace ImageAcquisitionThread

/-- A frame that arrives when the queue is full: `put_nowait` raises
`queue.Full`, the handler resets `nr` to 0 and the loop continues with the
queue unchanged (the cached dimensions were already updated by the
conversion, which runs before the enqueue). -/
theorem stepIter_full_drop {cap : Nat} {ic es : Bool} {s : AcqState} {f : Frame}
    (h : cap ≤ s.image_queue.length) :
    stepIter cap ic es s (.frame f)
      = some { s with nr := 0, ctx := (convertImage ic s.ctx f).1 } := by
  simp [stepIter, put_nowait, if_pos h]

/-- A frame that arrives when the queue has room: the converted image is
appended, and the signal fires exactly when the incremented counter
reaches 2, which also resets the counter. -/
theorem stepIter_enqueue (cap : Nat) (ic es : Bool) {s : AcqState} {f : Frame}
    (h : s.image_queue.length < cap) :
    stepIter cap ic es s (.frame f)
      = some { image_queue := s.image_queue ++ [(convertImage ic s.ctx f).2],
               nr := if s.nr + 1 = 2 then 0 else s.nr + 1,
               emits := if s.nr + 1 = 2 then s.emits + (if es then 1 else 0) else s.emits,
               ctx := (convertImage ic s.ctx f).1 } := by
  have hn : ¬ cap ≤ s.image_queue.length := by omega
  by_cases h2 : s.nr + 1 = 2 <;> simp [stepIter, put_nowait, hn, h2]

/-- One iteration keeps the pairing counter below 2. -/
theorem stepIter_nr_le {cap : Nat} {ic es : Bool} {s s' : AcqState} {ev : AcqEvent}
    (h : stepIter cap ic es s ev = some s') (hnr : s.nr ≤ 1) : s'.nr ≤ 1 := by
  cases ev with
  | noFrame => simp [stepIter] at h; rw [← h]; exact hnr
  | pollError => simp [stepIter] at h
  | convError f => simp [stepIter] at h
  | consumerGet =>
    simp [stepIter] at h
    rw [← h]
    exact hnr
  | frame f =>
    simp only [stepIter] at h
    cases hp : put_nowait cap s.image_queue (convertImage ic s.ctx f).2 with
    | none =>
      rw [hp] at h
      simp at h
      rw [← h]
      simp
    | some q' =>
      rw [hp] at h
      by_cases h2 : s.nr + 1 = 2
      · simp [h2] at h; rw [← h]; simp
      · simp [h2] at h; rw [← h]; simp; omega

/-- One iteration keeps the queue within its capacity. -/
theorem stepIter_len_le {cap : Nat} {ic es : Bool} {s s' : AcqState} {ev : AcqEvent}
    (h : stepIter cap ic es s ev = some s') (hlen : s.image_queue.length ≤ cap) :
    s'.image_queue.length ≤ cap := by
  cases ev with
  | noFrame => simp [stepIter] at h; rw [← h]; exact hlen
  | pollError => simp [stepIter] at h
  | convError f => simp [stepIter] at h
  | consumerGet =>
    simp [stepIter] at h
    rw [← h]
    simp [List.length_tail]
    omega
  | frame f =>
    simp only [stepIter] at h
    cases hp : put_nowait cap s.image_queue (convertImage ic s.ctx f).2 with
    | none =>
      rw [hp] at h
      simp at h
      rw [← h]
      exact hlen
    | some q' =>
      have hq : s.image_queue.length < cap
          ∧ q' = s.image_queue ++ [(convertImage ic s.ctx f).2] := by
        unfold put_nowait at hp
        split at hp
        · exact absurd hp (by simp)
        · refine ⟨by omega, by simpa using hp.symm⟩
      rw [hp] at h
      by_cases h2 : s.nr + 1 = 2 <;> simp [h2] at h <;> rw [← h] <;>
        simp [hq.2, List.length_append] <;> omega

/-- Along any run of the loop the pairing counter stays below 2. -/
theorem runLoop_nr_le : ∀ (cap : Nat) (ic es : Bool) (evs : List AcqEvent) (s0 : AcqState),
    s0.nr ≤ 1 → ∀ st ∈ runLoop cap ic es s0 evs, st.nr ≤ 1 := by
  intro cap ic es evs
  induction evs with
  | nil => intro s0 h st hst; simp [runLoop] at hst
  | cons ev evs ih =>
    intro s0 h st hst
    rw [runLoop.eq_def] at hst
    cases hs : stepIter cap ic es s0 ev with
    | none => simp [hs] at hst
    | some s1 =>
      simp [hs] at hst
      rcases hst with rfl | hmem
      · exact stepIter_nr_le hs h
      · exact ih s1 (stepIter_nr_le hs h) st hmem

/-- Along any run of the loop the queue stays within its capacity. -/
theorem runLoop_len_le : ∀ (cap : Nat) (ic es : Bool) (evs : List AcqEvent) (s0 : AcqState),
    s0.image_queue.length ≤ cap →
    ∀ st ∈ runLoop cap ic es s0 evs, st.image_queue.length ≤ cap := by
  intro cap ic es evs
  induction evs with
  | nil => intro s0 h st hst; simp [runLoop] at hst
  | cons ev evs ih =>
    intro s0 h st hst
    rw [runLoop.eq_def] at hst
    cases hs : stepIter cap ic es s0 ev with
    | none => simp [hs] at hst
    | some s1 =>
      simp [hs] at hst
      rcases hst with rfl | hmem
      · exact stepIter_len_le hs h
      · exact ih s1 (stepIter_len_le hs h) st hmem

end ImageAcquisitionThread

/-! ## The claims -/

open ImageAcquisitionThread ConfigurationManager

/-- `save_config` then `load_config` recovers exactly the saved map. -/
theorem load_config_save_config (m : ConfigMap) :
    load_config (save_config m) = .ok (.obj m) := by
  show load_config (.present (renderV (.obj m))) = _
  simp [load_config, parseJson_render]

/-- C6: `load_config` on a missing backing file returns the empty store
without raising, while a file that exists but holds unparseable content is
surfaced as the distinguished `json.JSONDecodeError` rather than silently
producing an empty store. -/
theorem C6_load_missing_empty_malformed_error :
    load_config .missing = .ok (.obj [])
    ∧ ∀ cs : List Char, parseJsonChars cs = none →
        load_config (.present cs) = .error .jsonDecodeErr
        ∧ load_config (.present cs) ≠ .ok (.obj []) := by
  refine ⟨rfl, ?_⟩
  intro cs h
  constructor
  · simp [load_config, h]
  · simp [load_config, h]

/-- Witness for C6 at the malformed one-character document `{`. -/
theorem C6_witness :
    parseJsonChars ['{'] = none
    ∧ load_config (.present ['{']) = .error .jsonDecodeErr
    ∧ load_config (.present ['{']) ≠ .ok (.obj []) := by
  have h : parseJsonChars ['{'] = none := rfl
  have h2 := C6_load_missing_empty_malformed_error.2 ['{'] h
  exact ⟨h, h2.1, h2.2⟩

/-- C7: a map built from any sequence of `set` calls round-trips through
`save_config` followed by `load_config` on the same path: every key and
value is preserved. -/
theorem C7_save_load_round_trip :
    ∀ (start : ConfigMap) (ops : List (List Char × Json)),
      load_config (save_config (applySets start ops))
        = .ok (.obj (applySets start ops)) := by
  intro start ops
  exact load_config_save_config (applySets start ops)

/-- C4: a watcher tick that reads raw text differing from the last-seen
text replaces the in-memory map wholesale with a fresh `load_config` and
updates the last-seen text; `is_updated` reads true exactly in the window
from detection until the post-sleep clear and false afterwards — and on a
tick without a change the flag also ends (and stays) false, so a caller
polling slower than the interval can miss the whole true window. -/
theorem C4_watcher_update_window :
    (∀ (st : WatchState) (c : List Char) (cfg : Json),
      c ≠ st.comandosText →
      load_config (.present c) = .ok cfg →
      watcherTick (.present c) st = .ok (⟨c, cfg, true⟩, ⟨c, cfg, false⟩)
      ∧ is_updated ⟨c, cfg, true⟩ = true
      ∧ is_updated ⟨c, cfg, false⟩ = false)
    ∧ (∀ st : WatchState,
      watcherTick (.present st.comandosText) st = .ok (st, { st with file_change := false })
      ∧ is_updated { st with file_change := false } = false) := by
  constructor
  · intro st c cfg hne hload
    refine ⟨?_, rfl, rfl⟩
    simp [watcherTick, readFileText, hne, hload]
  · intro st
    refine ⟨?_, rfl⟩
    simp [watcherTick, readFileText]

/-- Witness for C4: a tick over the one-character document `7` differing
from the empty last-seen text. -/
theorem C4_witness :
    (['7'] : List Char) ≠ ([] : List Char)
    ∧ load_config (.present ['7']) = .ok (.num 7)
    ∧ watcherTick (.present ['7']) ⟨[], .null, false⟩
        = .ok (⟨['7'], .num 7, true⟩, ⟨['7'], .num 7, false⟩)
    ∧ is_updated ⟨['7'], .num 7, true⟩ = true
    ∧ is_updated ⟨['7'], .num 7, false⟩ = false := by
  have hne : (['7'] : List Char) ≠ ([] : List Char) := by simp
  have hl : load_config (.present ['7']) = .ok (.num 7) := rfl
  have h := C4_watcher_update_window.1 ⟨[], .null, false⟩ ['7'] (.num 7) hne hl
  exact ⟨hne, hl, h.1, h.2.1, h.2.2⟩

/-- C9: constructed with `watch_file = True` over a missing backing file,
the watcher thread's initial unguarded read raises `FileNotFoundError` and
the thread dies before any poll tick — unlike `load_config`, which treats
the missing file as an empty store. -/
theorem C9_watcher_initial_read_missing_file :
    ∀ (cfg0 : Json) (ticks : List FileState),
      fileWatcher .missing cfg0 ticks = .error .fileNotFound
      ∧ load_config .missing = .ok (.obj []) := by
  intro cfg0 ticks
  exact ⟨rfl, rfl⟩

/-- C10: on a manager constructed with `watch_file = False`, both `stop()`
and `join()` raise `AttributeError`, because `stop_event` and
`config_watcher_thread` are created only under `watch_file`. -/
theorem C10_stop_join_attribute_error :
    ∀ (fs : FileState) (a : Attrs),
      mkManager fs false = .ok a →
      ConfigurationManager.stop a = .error .attributeErr
      ∧ ConfigurationManager.join a = .error .attributeErr := by
  intro fs a h
  unfold mkManager at h
  cases hl : load_config fs with
  | error e => rw [hl] at h; cases h
  | ok cfg =>
    rw [hl] at h
    simp at h
    rw [← h]
    exact ⟨rfl, rfl⟩

/-- Witness for C10: the manager built over a missing file with
`watch_file = False`. -/
theorem C10_witness :
    mkManager .missing false = .ok ⟨false, .obj [], none, none⟩
    ∧ ConfigurationManager.stop ⟨false, .obj [], none, none⟩ = .error .attributeErr
    ∧ ConfigurationManager.join ⟨false, .obj [], none, none⟩ = .error .attributeErr := by
  have h : mkManager .missing false = .ok ⟨false, .obj [], none, none⟩ := rfl
  have h2 := C10_stop_join_attribute_error .missing ⟨false, .obj [], none, none⟩ h
  exact ⟨h, h2.1, h2.2⟩

/-- C1: a poll with no frame leaves the pairing counter, the queue and the
emission count untouched; a dropped enqueue resets the counter to 0 and
emits nothing; a successful enqueue increments the counter and emits the
"pair ready" signal exactly when the counter reaches 2, resetting it; and
starting from `nr = 0` the counter never exceeds 1 after any iteration —
the signal therefore fires exactly once per 2 successful enqueues since
the last firing, the last drop, or the start. -/
theorem C1_pair_signal_per_two_successful_enqueues :
    (∀ (cap : Nat) (ic : Bool) (s : AcqState),
      stepIter cap ic true s .noFrame = some s)
    ∧ (∀ (cap : Nat) (ic : Bool) (s : AcqState) (f : Frame),
      cap ≤ s.image_queue.length →
      stepIter cap ic true s (.frame f)
        = some { s with nr := 0, ctx := (convertImage ic s.ctx f).1 })
    ∧ (∀ (cap : Nat) (ic : Bool) (s : AcqState) (f : Frame),
      s.image_queue.length < cap →
      stepIter cap ic true s (.frame f)
        = some { image_queue := s.image_queue ++ [(convertImage ic s.ctx f).2],
                 nr := if s.nr + 1 = 2 then 0 else s.nr + 1,
                 emits := if s.nr + 1 = 2 then s.emits + 1 else s.emits,
                 ctx := (convertImage ic s.ctx f).1 })
    ∧ (∀ (cap : Nat) (ic : Bool) (evs : List AcqEvent) (ctx : ColorCtx),
      ∀ st ∈ runLoop cap ic true (initState ctx) evs, st.nr ≤ 1) := by
  refine ⟨?_, ?_, ?_, ?_⟩
  · intro cap ic s
    rfl
  · intro cap ic s f h
    exact stepIter_full_drop h
  · intro cap ic s f h
    simpa using stepIter_enqueue cap ic true h
  · intro cap ic evs ctx st hst
    exact runLoop_nr_le cap ic true evs (initState ctx) (by simp [initState]) st hst

/-- Witness for C1: a full queue of two grayscale images drops the frame
and resets the counter; an empty queue enqueues and, the counter standing
at 1, fires the signal and resets. -/
theorem C1_witness :
    (2:Nat) ≤ ([PILImage.gray [[5]], PILImage.gray [[5]]] : List PILImage).length
    ∧ stepIter 2 false true ⟨[PILImage.gray [[5]], PILImage.gray [[5]]], 1, 0, ⟨1, 1⟩⟩
        (.frame ⟨[[5]]⟩)
        = some ⟨[PILImage.gray [[5]], PILImage.gray [[5]]], 0, 0, ⟨1, 1⟩⟩
    ∧ ([] : List PILImage).length < 2
    ∧ stepIter 2 false true ⟨[], 1, 0, ⟨1, 1⟩⟩ (.frame ⟨[[5]]⟩)
        = some ⟨[PILImage.gray [[5]]], 0, 1, ⟨1, 1⟩⟩ := by
  have h1 : (2:Nat) ≤ ([PILImage.gray [[5]], PILImage.gray [[5]]] : List PILImage).length := by
    simp
  have h3 : ([] : List PILImage).length < 2 := by simp
  have h2 := C1_pair_signal_per_two_successful_enqueues.2.1 2 false
    ⟨[PILImage.gray [[5]], PILImage.gray [[5]]], 1, 0, ⟨1, 1⟩⟩ ⟨[[5]]⟩ h1
  have h4 := C1_pair_signal_per_two_successful_enqueues.2.2.1 2 false
    ⟨[], 1, 0, ⟨1, 1⟩⟩ ⟨[[5]]⟩ h3
  refine ⟨h1, ?_, h3, ?_⟩
  · rw [h2]
    rfl
  · rw [h4]
    rfl

/-- C2: with the internally-owned queue (capacity 2), every state along any
run of the loop holds at most 2 images; and a frame arriving at a full
queue is dropped — the queue is left exactly as it was (no eviction of
older entries, the new image not retained), the pairing counter resets to
0, and the producer continues (the step does not block or fail). -/
theorem C2_bounded_queue_drop_newest :
    (∀ (ic es : Bool) (evs : List AcqEvent) (ctx : ColorCtx),
      ∀ st ∈ runLoop 2 ic es (initState ctx) evs, st.image_queue.length ≤ 2)
    ∧ (∀ (ic es : Bool) (s : AcqState) (f : Frame),
      2 ≤ s.image_queue.length →
      stepIter 2 ic es s (.frame f)
        = some { s with nr := 0, ctx := (convertImage ic s.ctx f).1 }) := by
  constructor
  · intro ic es evs ctx st hst
    exact runLoop_len_le 2 ic es evs (initState ctx) (by simp [initState]) st hst
  · intro ic es s f h
    exact stepIter_full_drop h

/-- Witness for C2: the full-queue drop at a concrete state, with the
signal sink absent. -/
theorem C2_witness :
    (2:Nat) ≤ ([PILImage.gray [[7]], PILImage.gray [[8]]] : List PILImage).length
    ∧ stepIter 2 false false ⟨[PILImage.gray [[7]], PILImage.gray [[8]]], 1, 3, ⟨1, 1⟩⟩
        (.frame ⟨[[9]]⟩)
        = some ⟨[PILImage.gray [[7]], PILImage.gray [[8]]], 0, 3, ⟨1, 1⟩⟩ := by
  have h1 : (2:Nat) ≤ ([PILImage.gray [[7]], PILImage.gray [[8]]] : List PILImage).length := by
    simp
  have h2 := C2_bounded_queue_drop_newest.2 false false
    ⟨[PILImage.gray [[7]], PILImage.gray [[8]]], 1, 3, ⟨1, 1⟩⟩ ⟨[[9]]⟩ h1
  exact ⟨h1, by rw [h2]; rfl⟩

/-- C3: a queue-full condition is non-fatal — the loop records the reset
state and continues with the remaining iterations; an error from polling
or conversion terminates the loop at once, the remaining iterations never
running (no retry); and on every exit, whatever the cause, the
mono-to-color processor and SDK are disposed exactly when the sensor is a
color sensor. -/
theorem C3_queue_full_nonfatal_errors_fatal_dispose :
    (∀ (cap : Nat) (ic es : Bool) (s : AcqState) (f : Frame) (evs : List AcqEvent),
      cap ≤ s.image_queue.length →
      runLoop cap ic es s (.frame f :: evs)
        = { s with nr := 0, ctx := (convertImage ic s.ctx f).1 }
            :: runLoop cap ic es { s with nr := 0, ctx := (convertImage ic s.ctx f).1 } evs)
    ∧ (∀ (cap : Nat) (ic es : Bool) (s : AcqState) (f : Frame) (evs : List AcqEvent),
      runLoop cap ic es s (.pollError :: evs) = []
      ∧ runLoop cap ic es s (.convError f :: evs) = [])
    ∧ (∀ (cap : Nat) (ic es : Bool) (s0 : AcqState) (evs : List AcqEvent),
      (ImageAcquisitionThread.run cap ic es s0 evs).mono_to_color_processor_disposed = ic
      ∧ (ImageAcquisitionThread.run cap ic es s0 evs).mono_to_color_sdk_disposed = ic) := by
  refine ⟨?_, ?_, ?_⟩
  · intro cap ic es s f evs h
    rw [runLoop.eq_def]
    simp [stepIter_full_drop h]
  · intro cap ic es s f evs
    constructor <;> (rw [runLoop.eq_def]; simp [stepIter])
  · intro cap ic es s0 evs
    exact ⟨rfl, rfl⟩

/-- Witness for C3: with a full queue, one more frame plus a later
iteration keeps the loop going. -/
theorem C3_witness :
    (1:Nat) ≤ ([PILImage.gray [[4]]] : List PILImage).length
    ∧ runLoop 1 false true ⟨[PILImage.gray [[4]]], 0, 0, ⟨1, 1⟩⟩
        (.frame ⟨[[6]]⟩ :: [.noFrame])
        = ⟨[PILImage.gray [[4]]], 0, 0, ⟨1, 1⟩⟩
            :: runLoop 1 false true ⟨[PILImage.gray [[4]]], 0, 0, ⟨1, 1⟩⟩ [.noFrame] := by
  have h1 : (1:Nat) ≤ ([PILImage.gray [[4]]] : List PILImage).length := by simp
  have h2 := C3_queue_full_nonfatal_errors_fatal_dispose.1 1 false true
    ⟨[PILImage.gray [[4]]], 0, 0, ⟨1, 1⟩⟩ ⟨[[6]]⟩ [.noFrame] h1
  exact ⟨h1, by rw [h2]; rfl⟩

/-- C5: with no camera discovered, `Camera.initialize_camera` ends in the
distinguished camera-is-None, not-connected outcome (the caught
`CameraNotFoundError`), distinct from the other failure shape and from any
open handle; the handler then neither constructs nor starts the
`ImageAcquisitionThread`. -/
theorem C5_no_camera_distinguished_error_no_pipeline :
    ∀ (env : CamEnv) (ctx : ColorCtx),
      env.available_cameras = [] →
      Camera.initialize_camera env = { connected := false, camera := .noneVal }
      ∧ CamAttr.noneVal ≠ CamAttr.unassigned
      ∧ (∀ h : Nat, CamAttr.noneVal ≠ CamAttr.handle h)
      ∧ (ThorlabsCameraHandler.initialize_camera env ctx).connected = false
      ∧ (ThorlabsCameraHandler.initialize_camera env ctx).image_acquisition_thread = none
      ∧ (ThorlabsCameraHandler.initialize_camera env ctx).is_alive = false := by
  intro env ctx h
  have hc : Camera.initialize_camera env = { connected := false, camera := .noneVal } := by
    simp [Camera.initialize_camera, h]
  refine ⟨hc, by decide, fun h' => by simp, ?_, ?_, rfl⟩
  · simp [ThorlabsCameraHandler.initialize_camera, hc]
  · simp [ThorlabsCameraHandler.initialize_camera, hc]

/-- Witness for C5: the empty discovery result. -/
theorem C5_witness :
    Camera.initialize_camera ⟨[], false⟩ = { connected := false, camera := .noneVal }
    ∧ (ThorlabsCameraHandler.initialize_camera ⟨[], false⟩ ⟨0, 0⟩).image_acquisition_thread = none
    ∧ (ThorlabsCameraHandler.initialize_camera ⟨[], false⟩ ⟨0, 0⟩).is_alive = false := by
  have h := C5_no_camera_distinguished_error_no_pipeline ⟨[], false⟩ ⟨0, 0⟩ rfl
  exact ⟨h.1, h.2.2.2.2.1, h.2.2.2.2.2⟩

/-- The shape of a reshaped RGB buffer: height rows of width pixels of 3
channel values. -/
theorem reshape3_shape (flat : List Nat) (h w : Nat) :
    (reshape3 flat h w).length = h
    ∧ ∀ row ∈ reshape3 flat h w, row.length = w ∧ ∀ px ∈ row, px.length = 3 := by
  constructor
  · simp [reshape3]
  · intro row hrow
    simp only [reshape3, List.mem_map] at hrow
    obtain ⟨r, _, rfl⟩ := hrow
    constructor
    · simp
    · intro px hpx
      simp only [List.mem_map] at hpx
      obtain ⟨c, _, rfl⟩ := hpx
      simp

/-- `_get_color_image` always ends with the cached dimensions equal to the
frame's dimensions and converts with them. -/
theorem get_color_image_eq (ctx : ColorCtx) (f : Frame) :
    get_color_image ctx f
      = (⟨f.width, f.height⟩,
         .rgb (reshape3 (transform_to_24 f.image_buffer f.width f.height) f.height f.width)) := by
  obtain ⟨cw, ch⟩ := ctx
  unfold get_color_image
  by_cases h1 : f.width = cw
  · by_cases h2 : f.height = ch
    · subst h1
      subst h2
      simp
    · simp [h2]
  · simp [h1]

/-- C8: a color (Bayer) frame converts to an RGB image of exactly
height × width × 3 channel values, the cached dimensions having been
updated to the frame's dimensions before the conversion; a non-color frame
passes through as the single-channel raw buffer. -/
theorem C8_conversion_shapes_and_dimension_cache :
    (∀ (ctx : ColorCtx) (f : Frame),
      (get_color_image ctx f).1.image_width = f.width
      ∧ (get_color_image ctx f).1.image_height = f.height
      ∧ (get_color_image ctx f).2
          = .rgb (reshape3 (transform_to_24 f.image_buffer f.width f.height) f.height f.width)
      ∧ ∃ rows, (get_color_image ctx f).2 = .rgb rows
          ∧ rows.length = f.height
          ∧ ∀ row ∈ rows, row.length = f.width ∧ ∀ px ∈ row, px.length = 3)
    ∧ (∀ f : Frame, get_image f = .gray f.image_buffer) := by
  constructor
  · intro ctx f
    rw [get_color_image_eq]
    refine ⟨rfl, rfl, rfl, ⟨_, rfl, ?_, ?_⟩⟩
    · exact (reshape3_shape _ f.height f.width).1
    · exact (reshape3_shape _ f.height f.width).2
  · intro f
    rfl

end Thorcam
